import Mathlib

/-!
Shallow embedding of the NSEApp data pipeline (src/NSEApp.py).

The program is a single-file Dash application.  The verified core is the
data acquisition / normalization / ranking pipeline:

* `get_all_indices_data` (lines 24-43): one provider request per fixed
  index name, each row tagged with its index, batches concatenated.
* `get_stock_data` (lines 47-88): numeric coercion of eight mandatory
  columns, synthesis/coercion of three optional columns, derived
  `priceChange` / `percentageChange`, sort by `yearHigh` descending
  (pandas `sort_values` with the default unstable `quicksort` kind),
  projection to the output column list.
* the export callbacks (lines 91-103 and 175-177).

Numeric cells are modelled by `FVal`: a finite rational, a signed
infinity, or NaN (the pandas missing-value marker).  This mirrors IEEE
double behaviour for the operations the program performs (subtraction,
division, multiplication by 100, ordering), with exact rational
arithmetic in place of rounding and the two IEEE zeros identified.
-/

/-- A raw cell as it arrives from the provider JSON: a number, a string,
or a null. -/
inductive Raw
  | rnum (q : ℚ)
  | rstr (s : String)
  | rnull
deriving DecidableEq, Inhabited

/-- A pandas float cell: NaN (missing-value marker), a signed infinity
(`inf true` is +∞), or a finite rational. -/
inductive FVal
  | nan
  | inf (pos : Bool)
  | fin (q : ℚ)
deriving DecidableEq, Inhabited

/-- `isNan v` is the pandas `isna` test on a float cell. -/
def FVal.isNan : FVal → Bool
  | FVal.nan => true
  | _ => false

/-- IEEE subtraction on `FVal` (NaN propagates; ∞ − ∞ = NaN). Models the
elementwise `df['lastPrice'] - df['previousClose']` of line 77. -/
def FVal.sub : FVal → FVal → FVal
  | FVal.nan, _ => FVal.nan
  | _, FVal.nan => FVal.nan
  | FVal.inf p, FVal.inf q => if p = q then FVal.nan else FVal.inf p
  | FVal.inf p, FVal.fin _ => FVal.inf p
  | FVal.fin _, FVal.inf p => FVal.inf (!p)
  | FVal.fin a, FVal.fin b => FVal.fin (a - b)

/-- IEEE division on `FVal`: NaN propagates, finite/0 is ±∞ by the sign
of the numerator and NaN for 0/0, finite/∞ is 0, ∞/∞ is NaN.  Models the
elementwise `df['priceChange'] / df['previousClose']` of line 78 (numpy
float64 semantics: no exception is ever raised). -/
def FVal.div : FVal → FVal → FVal
  | FVal.nan, _ => FVal.nan
  | _, FVal.nan => FVal.nan
  | FVal.inf _, FVal.inf _ => FVal.nan
  | FVal.inf p, FVal.fin b => if b < 0 then FVal.inf (!p) else FVal.inf p
  | FVal.fin _, FVal.inf _ => FVal.fin 0
  | FVal.fin a, FVal.fin b =>
      if b = 0 then (if a = 0 then FVal.nan else FVal.inf (decide (0 < a)))
      else FVal.fin (a / b)

/-- Multiplication by the positive constant 100 (line 78's `* 100`). -/
def FVal.mul100 : FVal → FVal
  | FVal.nan => FVal.nan
  | FVal.inf p => FVal.inf p
  | FVal.fin a => FVal.fin (a * 100)

/-- IEEE strict `<` on float cells: false whenever either side is NaN,
with −∞ below every finite value and +∞ above. -/
def ieeeLt : FVal → FVal → Bool
  | FVal.fin a, FVal.fin b => decide (a < b)
  | FVal.fin _, FVal.inf p => p
  | FVal.inf p, FVal.fin _ => !p
  | FVal.inf p, FVal.inf q => !p && q
  | _, _ => false

/-- numpy's sort comparison `DOUBLE_LT(a,b) = a < b || (b != b && a == a)`:
IEEE `<` except that NaN compares greater than every non-NaN value. -/
def npyLt (a b : FVal) : Bool := ieeeLt a b || (b.isNan && !a.isNan)

/-- One character of an unsigned decimal literal. -/
def isDigitCh (c : Char) : Bool := decide ('0' ≤ c) && decide (c ≤ '9')

/-- Digits-and-dot check: at least one digit, at most one '.', and
nothing else.  Used by `parseDec`. -/
def decShape (cs : List Char) : Bool :=
  cs.any isDigitCh &&
  cs.all (fun c => isDigitCh c || c = '.') &&
  decide ((cs.filter (fun c => c = '.')).length ≤ 1)

/-- Value of a digit list read in base 10. -/
def digitsVal (cs : List Char) : ℚ :=
  cs.foldl (fun acc c => acc * 10 + ((c.toNat - '0'.toNat : ℕ) : ℚ)) 0

/-- Parse an optionally signed decimal literal (after stripping ASCII
spaces), returning `none` for malformed text.  This models the string
acceptance of `pd.to_numeric` on object columns: well-formed decimal
text parses, anything else is malformed. -/
def parseDec (s : String) : Option ℚ :=
  let cs := (s.toList.filter (fun c => c ≠ ' '))
  let (sign, body) :=
    match cs with
    | '-' :: rest => ((-1 : ℚ), rest)
    | '+' :: rest => ((1 : ℚ), rest)
    | _ => ((1 : ℚ), cs)
  if decShape body then
    let intPart := body.takeWhile (fun c => c ≠ '.')
    let fracPart := (body.dropWhile (fun c => c ≠ '.')).drop 1
    some (sign * (digitsVal intPart + digitsVal fracPart / (10 : ℚ) ^ fracPart.length))
  else none

/-- `pd.to_numeric(x, errors='coerce')` on one cell (lines 51-58):
numbers pass through, null/absent becomes NaN, strings parse as decimal
text or coerce to NaN. -/
def coerceRaw : Raw → FVal
  | Raw.rnum q => FVal.fin q
  | Raw.rnull => FVal.nan
  | Raw.rstr s =>
      match parseDec s with
      | some q => FVal.fin q
      | none => FVal.nan

/-- One provider record for one symbol.  The eight mandatory columns are
always materialised by `pd.DataFrame` (a key missing from an individual
dict is a NaN cell, modelled as `rnull`); the three optional columns may
be absent from a record's dict entirely (`none`), which is what the
`'pe' in df.columns` tests of lines 61-74 observe. -/
structure RawRecord where
  symbol : String
  totalTradedVolume : Raw
  lastPrice : Raw
  previousClose : Raw
  openPrice : Raw
  dayHigh : Raw
  dayLow : Raw
  yearHigh : Raw
  yearLow : Raw
  totalMktCap : Option Raw
  pe : Option Raw
  vwap : Option Raw
deriving DecidableEq, Inhabited

/-- A record after line 37's `df['index'] = index`: the raw record plus
the name of the index it was fetched for. -/
structure TaggedRecord where
  raw : RawRecord
  index : String
deriving DecidableEq, Inhabited

/-- A fully normalized row, before the line 84-86 projection (so still
carrying `totalTradedVolume`).  `openPrice` renders the source column
`open` (a Lean keyword). -/
structure NormRow where
  symbol : String
  index : String
  totalTradedVolume : FVal
  lastPrice : FVal
  previousClose : FVal
  openPrice : FVal
  dayHigh : FVal
  dayLow : FVal
  yearHigh : FVal
  yearLow : FVal
  totalMktCap : FVal
  pe : FVal
  vwap : FVal
  priceChange : FVal
  percentageChange : FVal
deriving DecidableEq, Inhabited

/-- A row of the final output, after the line 84-86 column selection
(dropping `totalTradedVolume`), field order following the source list. -/
structure StockRow where
  symbol : String
  index : String
  lastPrice : FVal
  previousClose : FVal
  openPrice : FVal
  dayHigh : FVal
  dayLow : FVal
  priceChange : FVal
  percentageChange : FVal
  yearHigh : FVal
  yearLow : FVal
  totalMktCap : FVal
  pe : FVal
  vwap : FVal
deriving DecidableEq, Inhabited

/-- Whether the merged frame has a `totalMktCap` column: `pd.DataFrame` /
`pd.concat` build the column union, so the column exists iff some record
carries the key (line 61's `'totalMktCap' in df.columns`). -/
def hasMktCap (t : List TaggedRecord) : Bool := t.any (fun x => x.raw.totalMktCap.isSome)

/-- Whether the merged frame has a `pe` column (line 66). -/
def hasPe (t : List TaggedRecord) : Bool := t.any (fun x => x.raw.pe.isSome)

/-- Whether the merged frame has a `vwap` column (line 71). -/
def hasVwap (t : List TaggedRecord) : Bool := t.any (fun x => x.raw.vwap.isSome)

/-- Normalization of one row (lines 51-78): coerce the eight mandatory
columns; coerce an optional column when the frame has it (an absent key
in this record being a NaN cell) and otherwise set the whole column to
the missing marker (`df['pe'] = None`); derive `priceChange` and
`percentageChange`. -/
def normalizeRow (hasMkt hPe hVw : Bool) (x : TaggedRecord) : NormRow :=
  let lp := coerceRaw x.raw.lastPrice
  let pc := coerceRaw x.raw.previousClose
  let change := lp.sub pc
  { symbol := x.raw.symbol
    index := x.index
    totalTradedVolume := coerceRaw x.raw.totalTradedVolume
    lastPrice := lp
    previousClose := pc
    openPrice := coerceRaw x.raw.openPrice
    dayHigh := coerceRaw x.raw.dayHigh
    dayLow := coerceRaw x.raw.dayLow
    yearHigh := coerceRaw x.raw.yearHigh
    yearLow := coerceRaw x.raw.yearLow
    totalMktCap := if hasMkt then coerceRaw (x.raw.totalMktCap.getD Raw.rnull) else FVal.nan
    pe := if hPe then coerceRaw (x.raw.pe.getD Raw.rnull) else FVal.nan
    vwap := if hVw then coerceRaw (x.raw.vwap.getD Raw.rnull) else FVal.nan
    priceChange := change
    percentageChange := (change.div pc).mul100 }

/-- The line 84-86 column selection. -/
def projectRow (r : NormRow) : StockRow :=
  { symbol := r.symbol
    index := r.index
    lastPrice := r.lastPrice
    previousClose := r.previousClose
    openPrice := r.openPrice
    dayHigh := r.dayHigh
    dayLow := r.dayLow
    priceChange := r.priceChange
    percentageChange := r.percentageChange
    yearHigh := r.yearHigh
    yearLow := r.yearLow
    totalMktCap := r.totalMktCap
    pe := r.pe
    vwap := r.vwap }

/-- The normalized (still unsorted) table. -/
def normTable (t : List TaggedRecord) : List NormRow :=
  t.map (normalizeRow (hasMktCap t) (hasPe t) (hasVwap t))

/-- The sort keys of line 81: the `yearHigh` column of the normalized
frame. -/
def rankKeys (t : List TaggedRecord) : List FVal :=
  (normTable t).map (fun r => r.yearHigh)

/-- Read position `i` of the index vector `tosort` (out of bounds reads
0; in-range in every execution the program performs). -/
def lget : List Nat → Nat → Nat
  | [], _ => 0
  | a :: _, 0 => a
  | _ :: l, n + 1 => lget l n

/-- Write position `i` of the index vector (the identity out of
bounds). -/
def lset : List Nat → Nat → Nat → List Nat
  | [], _, _ => []
  | _ :: l, 0, x => x :: l
  | a :: l, n + 1, x => a :: lset l n x

/-- `INTP_SWAP(tosort[i], tosort[j])`. -/
def lswap (t : List Nat) (i j : Nat) : List Nat :=
  lset (lset t i (lget t j)) j (lget t i)

/-- Read position `i` of the value vector (out of bounds reads NaN). -/
def fget : List FVal → Nat → FVal
  | [], _ => FVal.nan
  | a :: _, 0 => a
  | _ :: l, n + 1 => fget l n

/-- Key lookup `v[tosort[i]]` used throughout numpy's argsort. -/
def kv (v : List FVal) (t : List Nat) (i : Nat) : FVal :=
  fget v (lget t i)

/-- The left scan `do ++pi; while (v[*pi] < vp)` of numpy's quicksort
partition, fuel-bounded. -/
def scanUp (v : List FVal) (t : List Nat) (vp : FVal) : Nat → Nat → Nat
  | 0, i => i + 1
  | fuel + 1, i =>
      let i' := i + 1
      if npyLt (kv v t i') vp then scanUp v t vp fuel i' else i'

/-- The right scan `do --pj; while (vp < v[*pj])`, fuel-bounded. -/
def scanDown (v : List FVal) (t : List Nat) (vp : FVal) : Nat → Nat → Nat
  | 0, j => j - 1
  | fuel + 1, j =>
      let j' := j - 1
      if npyLt vp (kv v t j') then scanDown v t vp fuel j' else j'

/-- The swap loop of numpy's quicksort partition, returning the index
vector and the crossing point `pi`. -/
def partLoop (v : List FVal) (vp : FVal) (sfuel : Nat) :
    Nat → List Nat → Nat → Nat → List Nat × Nat
  | 0, t, i, _ => (t, i)
  | fuel + 1, t, i, j =>
      let i' := scanUp v t vp sfuel i
      let j' := scanDown v t vp sfuel j
      if j' ≤ i' then (t, i')
      else partLoop v vp sfuel fuel (lswap t i' j') i' j'

/-- One median-of-3 partition step of numpy's `aquicksort` on the
segment `[pl, pr]` of `tosort`: the three conditional swaps, parking the
pivot at `pr - 1`, the scan/swap loop, and the final swap placing the
pivot at the crossing point. -/
def partitionSeg (v : List FVal) (t : List Nat) (pl pr : Nat) : List Nat × Nat :=
  let pm := pl + (pr - pl) / 2
  let t := if npyLt (kv v t pm) (kv v t pl) then lswap t pm pl else t
  let t := if npyLt (kv v t pr) (kv v t pm) then lswap t pr pm else t
  let t := if npyLt (kv v t pm) (kv v t pl) then lswap t pm pl else t
  let vp := kv v t pm
  let t := lswap t pm (pr - 1)
  let res := partLoop v vp (v.length + 2) (pr + 2) t pl (pr - 1)
  (lswap res.1 res.2 (pr - 1), res.2)

/-- The shift loop of numpy's insertion sort:
`while pj > pl and vp < v[tosort[pj-1]]: tosort[pj] = tosort[pj-1]`. -/
def insInner (v : List FVal) (vp : FVal) (pl : Nat) :
    Nat → List Nat → Nat → List Nat × Nat
  | 0, t, j => (t, j)
  | fuel + 1, t, j =>
      if pl < j && npyLt vp (kv v t (j - 1)) then
        insInner v vp pl fuel (lset t j (lget t (j - 1))) (j - 1)
      else (t, j)

/-- numpy's insertion sort on the segment `[pl, pr]` of `tosort` (the
base case of `aquicksort`, segments of at most 16 elements). -/
def insSortSeg (v : List FVal) (t : List Nat) (pl pr : Nat) : List Nat :=
  (List.range' (pl + 1) (pr - pl)).foldl
    (fun t pi =>
      let vi := lget t pi
      let vp := fget v vi
      let res := insInner v vp pl (pi + 1) t pi
      lset res.1 res.2 vi)
    t

/-- The child-selection step of numpy's `aheapsort` sift-down:
`if (j < n && v[a[j]] < v[a[j+1]]) j += 1`. -/
def bumpJ (v : List FVal) (pl n : Nat) (t : List Nat) (j : Nat) : Nat :=
  if j < n && npyLt (kv v t (pl + j - 1)) (kv v t (pl + j)) then j + 1 else j

/-- The sift-down loop shared by both phases of numpy's `aheapsort`,
on the 1-based heap `a[k] = tosort[pl + k - 1]` of size `n`. -/
def siftLoop (v : List FVal) (pl n : Nat) (vtmp : FVal) :
    Nat → List Nat → Nat → Nat → List Nat × Nat
  | 0, t, i, _ => (t, i)
  | fuel + 1, t, i, j =>
      if j ≤ n then
        if npyLt vtmp (kv v t (pl + bumpJ v pl n t j - 1)) then
          siftLoop v pl n vtmp fuel
            (lset t (pl + i - 1) (lget t (pl + bumpJ v pl n t j - 1)))
            (bumpJ v pl n t j) (bumpJ v pl n t j + bumpJ v pl n t j)
        else (t, i)
      else (t, i)

/-- numpy's `aheapsort` on the segment of length `n` starting at `pl`
(the depth-limit fallback of `aquicksort`): heapify, then repeated
extraction of the maximum. -/
def aheapsortSeg (v : List FVal) (t : List Nat) (pl n : Nat) : List Nat :=
  let heapified :=
    (List.range (n / 2)).foldl
      (fun t k =>
        let l := n / 2 - k
        let tmp := lget t (pl + l - 1)
        let res := siftLoop v pl n (fget v tmp) (n + 2) t l (l * 2)
        lset res.1 (pl + res.2 - 1) tmp)
      t
  (List.range (n - 1)).foldl
    (fun t k =>
      let m := n - k
      let tmp := lget t (pl + m - 1)
      let t := lset t (pl + m - 1) (lget t pl)
      let res := siftLoop v pl (m - 1) (fget v tmp) (n + 2) t 1 2
      lset res.1 (pl + res.2 - 1) tmp)
    heapified

/-- The main loop of numpy's `aquicksort`: segments larger than
`SMALL_QUICKSORT = 15` are partitioned (the larger side pushed on an
explicit stack, the smaller side processed next) with a shared
decrement-per-partition depth budget falling back to heapsort; small
segments are insertion sorted; then the stack is popped. -/
def qsortLoop (v : List FVal) : Nat → List Nat → Nat → Nat → Int → List (Nat × Nat) → List Nat
  | 0, t, _, _, _, _ => t
  | fuel + 1, t, pl, pr, depth, stack =>
      if 15 < pr - pl then
        if depth < 0 then
          let t := aheapsortSeg v t pl (pr - pl + 1)
          match stack with
          | [] => t
          | (a, b) :: rest => qsortLoop v fuel t a b (depth - 1) rest
        else
          match partitionSeg v t pl pr with
          | (t', pi) =>
            if pi - pl < pr - pi then
              qsortLoop v fuel t' pl (pi - 1) (depth - 1) ((pi + 1, pr) :: stack)
            else
              qsortLoop v fuel t' (pi + 1) pr (depth - 1) ((pl, pi - 1) :: stack)
      else
        let t := insSortSeg v t pl pr
        match stack with
        | [] => t
        | (a, b) :: rest => qsortLoop v fuel t a b depth rest

/-- Fuel-bounded floor of the base-2 logarithm (`npy_get_msb`): the
same recursion as `Nat.log2`, with structural fuel (`fuel = n`
suffices for every positive `n`). -/
def log2fuel : Nat → Nat → Nat
  | 0, _ => 0
  | fuel + 1, n => if 2 ≤ n then log2fuel fuel (n / 2) + 1 else 0

/-- `ndarray.argsort(kind='quicksort')` on a float vector: numpy's
introsort over an index vector, depth budget `2 * npy_get_msb(n)`, fuel
large enough for every in-range execution. -/
def quickArgsort (v : List FVal) : List Nat :=
  let n := v.length
  qsortLoop v (8 * n + 8) (List.range n) 0 (n - 1) (2 * (log2fuel n n : Int)) []

/-- The positions of the non-NaN keys (pandas `nargsort`'s `~mask`). -/
def nonNanIdx (vs : List FVal) : List Nat :=
  (List.range vs.length).filter (fun i => !(vs.getD i FVal.nan).isNan)

/-- The positions of the NaN keys (pandas `nargsort`'s `mask`). -/
def nanIdxL (vs : List FVal) : List Nat :=
  (List.range vs.length).filter (fun i => (vs.getD i FVal.nan).isNan)

/-- The non-NaN key values in reversed position order: `nargsort`'s
`non_nans[::-1]`, the vector handed to the ascending kernel argsort. -/
def revVals (vs : List FVal) : List FVal :=
  (nonNanIdx vs).reverse.map (fun i => vs.getD i FVal.nan)

/-- pandas `nargsort(key, kind, ascending=False, na_position='last')`
exactly as `pandas.core.sorting.nargsort` computes it for the line 81
`sort_values(by='yearHigh', ascending=False)`: NaNs are masked out, the
non-NaN values and their positions are reversed, the kernel argsort runs
ascending, the result is reversed back and the NaN positions appended. -/
def nargsortDesc (kernel : List FVal → List Nat) (vs : List FVal) : List Nat :=
  ((kernel (revVals vs)).map (fun a => (nonNanIdx vs).reverse.getD a 0)).reverse ++ nanIdxL vs

/-- The default tagged record (all cells null): normalizing it yields
the all-NaN row used as the (never reached) out-of-range default. -/
def dfltTagged : TaggedRecord :=
  { raw := { symbol := ""
             totalTradedVolume := Raw.rnull
             lastPrice := Raw.rnull
             previousClose := Raw.rnull
             openPrice := Raw.rnull
             dayHigh := Raw.rnull
             dayLow := Raw.rnull
             yearHigh := Raw.rnull
             yearLow := Raw.rnull
             totalMktCap := none
             pe := none
             vwap := none }
    index := "" }

/-- The row permutation computed by line 81's
`df.sort_values(by='yearHigh', ascending=False)`. -/
def rankIndexer (t : List TaggedRecord) : List Nat :=
  nargsortDesc quickArgsort (rankKeys t)

/-- The whole Normalizer/Ranker stage, `get_stock_data` (lines 47-88):
normalize every row, take the rows in the order of the pandas sort
indexer, project to the output columns. -/
def get_stock_data (t : List TaggedRecord) : List StockRow :=
  let norm := normTable t
  let dflt := normalizeRow (hasMktCap t) (hasPe t) (hasVwap t) dfltTagged
  ((rankIndexer t).map (fun i => norm.getD i dflt)).map projectRow

/-- The fixed index list of lines 25-29. -/
def indicesList : List String :=
  ["NIFTY 50", "NIFTY NEXT 50", "NIFTY MIDCAP 50", "NIFTY SMALLCAP 100",
   "NIFTY 100", "NIFTY 200", "NIFTY 500", "NIFTY MIDCAP 100",
   "NIFTY MIDCAP 150", "NIFTY SMALLCAP 250", "NIFTY MIDSML 400"]

/-- Line 37's `df['index'] = index`: tag every record of a batch with
the queried index name. -/
def tagBatch (name : String) (rs : List RawRecord) : List TaggedRecord :=
  rs.map (fun r => { raw := r, index := name })

/-- The fetch loop of lines 31-41 over a list of index names: one
provider request per name, tag, collect; an exception from `nsefetch`
propagates immediately, aborting the loop before later requests and
before the `pd.concat`, so no partial result is ever returned. -/
def fetchAll (provider : String → Except String (List RawRecord)) :
    List String → Except String (List TaggedRecord)
  | [] => Except.ok []
  | name :: rest =>
      match provider name with
      | Except.error e => Except.error e
      | Except.ok rows =>
          match fetchAll provider rest with
          | Except.error e => Except.error e
          | Except.ok tail => Except.ok (tagBatch name rows ++ tail)

/-- `get_all_indices_data` (lines 24-43), parameterized by the external
provider (`nsefetch`): fetch each fixed index in list order and
concatenate (`pd.concat(all_data, ignore_index=True)`). -/
def get_all_indices_data (provider : String → Except String (List RawRecord)) :
    Except String (List TaggedRecord) :=
  fetchAll provider indicesList

/-- A spreadsheet serialization request as handed to `df.to_excel`:
which sheet name, whether the frame index is written, and the table.
The binary xlsx encoding itself is external to the program. -/
structure ExcelPayload where
  sheetName : String
  includeIndex : Bool
  table : List StockRow
deriving DecidableEq

/-- The default `sheet_name` argument of pandas `DataFrame.to_excel`,
used whenever the caller passes none. -/
def pandasDefaultSheet : String := "Sheet1"

/-- A data-URI download link as built by lines 91-103. -/
structure DataLink where
  mime : String
  payload : ExcelPayload
deriving DecidableEq

/-- `generate_excel_download_link` (lines 91-103): writes the frame to
an in-memory xlsx with `sheet_name='Stocks'`, `index=False` and wraps it
in a base64 data URI.  This helper is defined but never called by any
callback or layout element of the program. -/
def generate_excel_download_link (df : List StockRow) : DataLink :=
  { mime := "data:application/vnd.openxmlformats-officedocument.spreadsheetml.sheet;base64"
    payload := { sheetName := "Stocks", includeIndex := false, table := df } }

/-- A browser download as produced by `dcc.send_data_frame`. -/
structure DownloadFile where
  filename : String
  payload : ExcelPayload
deriving DecidableEq

/-- `download_as_excel` (lines 175-177), the callback wired to the
export button: `dcc.send_data_frame(df.to_excel,
"NSE_Stocks_Sorted_by_52_Week_High.xlsx", index=False)`.  No
`sheet_name` is passed, so `df.to_excel` uses its default sheet name. -/
def download_as_excel (t : List TaggedRecord) : DownloadFile :=
  { filename := "NSE_Stocks_Sorted_by_52_Week_High.xlsx"
    payload := { sheetName := pandasDefaultSheet
                 includeIndex := false
                 table := get_stock_data t } }

/-- One call through `@functools.lru_cache(maxsize=1)` on the
zero-argument `get_stock_data` (line 46): a hit returns the cached
table without running the body; a miss runs the body on whatever the
inner fetch would currently return and fills the slot.  The program
never invalidates this cache. -/
def lruStep (cache : Option (List StockRow)) (fresh : List TaggedRecord) :
    List StockRow × Option (List StockRow) :=
  match cache with
  | some tbl => (tbl, some tbl)
  | none => (get_stock_data fresh, some (get_stock_data fresh))

/-- A sequence of `get_stock_data()` calls in one process: the k-th call
happens while the inner fetch would return `fresh_k` (the 25-second
flask cache may have expired and the 60-second interval may have fired
any number of times in between). -/
def runCalls : Option (List StockRow) → List (List TaggedRecord) → List (List StockRow)
  | _, [] => []
  | cache, fresh :: rest =>
      let r := lruStep cache fresh
      r.1 :: runCalls r.2 rest

/-- The per-adjacent-pair order of the ranked output required by the
spec: a present key is never followed by a larger present key, and a
missing key is never followed by a present one. -/
def descKey (a b : FVal) : Prop :=
  (a.isNan = true → b.isNan = true) ∧ (b.isNan = false → ieeeLt a b = false)

/-- Boolean adjacent-pairs check: `R` holds for every adjacent pair. -/
def chainB {α : Type} (R : α → α → Bool) : List α → Bool
  | [] => true
  | [_] => true
  | a :: b :: l => R a b && chainB R (b :: l)

/-- Boolean all-pairs check: `R` holds for every pair in list order. -/
def pairwiseB {α : Type} (R : α → α → Bool) : List α → Bool
  | [] => true
  | a :: l => l.all (fun b => R a b) && pairwiseB R l

/-- Boolean key equality used to spot ties: equal values, or both
missing. -/
def keyEquivB (a b : FVal) : Bool := a == b || (a.isNan && b.isNan)

/-- The stable-tie-break clause of the claim on line 81's sort: whenever
two output positions carry tied `yearHigh` keys, the earlier output row
comes from the earlier input row. -/
@[reducible] def stableTiesHolds (t : List TaggedRecord) : Prop :=
  pairwiseB
    (fun i j => !keyEquivB ((rankKeys t).getD i FVal.nan) ((rankKeys t).getD j FVal.nan) ||
      decide (i < j))
    (rankIndexer t) = true

/-- The contract of `ndarray.argsort` on a vector: the result is a
permutation of all positions that reads the values out in ascending
order. -/
@[reducible] def argsortValid (vs : List FVal) (p : List Nat) : Prop :=
  p.isPerm (List.range vs.length) = true ∧
  chainB (fun a b => !npyLt (vs.getD b FVal.nan) (vs.getD a FVal.nan)) p = true

/-- A tagged record with a given symbol, `yearHigh`, `lastPrice` and
`previousClose`; every other mandatory cell null, the optional columns
absent, tagged "NIFTY 50". -/
def mkTagged (s : String) (yh lp pc : Raw) : TaggedRecord :=
  { raw := { symbol := s
             totalTradedVolume := Raw.rnull
             lastPrice := lp
             previousClose := pc
             openPrice := Raw.rnull
             dayHigh := Raw.rnull
             dayLow := Raw.rnull
             yearHigh := yh
             yearLow := Raw.rnull
             totalMktCap := none
             pe := none
             vwap := none }
    index := "NIFTY 50" }

/-- Seventeen rows with identical `yearHigh` (just past numpy's
`SMALL_QUICKSORT` insertion-sort cutoff of 16, so the partition step of
the unstable default quicksort runs). -/
def ex17 : List TaggedRecord :=
  ["s00", "s01", "s02", "s03", "s04", "s05", "s06", "s07", "s08",
   "s09", "s10", "s11", "s12", "s13", "s14", "s15", "s16"].map
    (fun s => mkTagged s (Raw.rnum 100) (Raw.rnum 5) (Raw.rnum 4))

/-- One ordinary row: `lastPrice` 5, `previousClose` 4. -/
def exW1 : List TaggedRecord := [mkTagged "AAA" (Raw.rnum 100) (Raw.rnum 5) (Raw.rnum 4)]

/-- The single output row of `exW1`. -/
def rW1 : StockRow := (get_stock_data exW1).getD 0 default

/-- One row with `previousClose` 0 and `lastPrice` 5: the division of
line 78 is 5 / 0. -/
def exC1 : List TaggedRecord := [mkTagged "ZRO" (Raw.rnum 100) (Raw.rnum 5) (Raw.rnum 0)]

/-- The single output row of `exC1`. -/
def rC1 : StockRow := (get_stock_data exC1).getD 0 default

/-- Three rows with `yearHigh` keys 10, missing, 50. -/
def exW2 : List TaggedRecord :=
  [mkTagged "A" (Raw.rnum 10) (Raw.rnum 1) (Raw.rnum 1),
   mkTagged "B" Raw.rnull (Raw.rnum 1) (Raw.rnum 1),
   mkTagged "C" (Raw.rnum 50) (Raw.rnum 1) (Raw.rnum 1)]

/-- A provider whose request for "NIFTY 500" fails and succeeds for
every other index. -/
def failingProvider : String → Except String (List RawRecord) :=
  fun n => if n = "NIFTY 500" then Except.error "connection reset" else Except.ok []

lemma getD_mem_or {α : Type} (l : List α) (i : Nat) (d : α) :
    l.getD i d ∈ l ∨ l.getD i d = d := by
  induction l generalizing i with
  | nil => right; cases i <;> rfl
  | cons a l ih =>
      cases i with
      | zero => left; exact List.mem_cons_self a l
      | succ n =>
          rcases ih n with h | h
          · left; exact List.mem_cons_of_mem a h
          · right; exact h

lemma mem_get_stock_data_repr {t : List TaggedRecord} {r : StockRow}
    (hr : r ∈ get_stock_data t) :
    ∃ x : TaggedRecord,
      r = projectRow (normalizeRow (hasMktCap t) (hasPe t) (hasVwap t) x) ∧
      (x ∈ t ∨ x = dfltTagged) := by
  unfold get_stock_data at hr
  rcases List.mem_map.mp hr with ⟨nr, hnr, hproj⟩
  rcases List.mem_map.mp hnr with ⟨i, _, hi⟩
  rcases getD_mem_or (normTable t)
      i (normalizeRow (hasMktCap t) (hasPe t) (hasVwap t) dfltTagged) with h | h
  · rw [hi] at h
    rcases List.mem_map.mp h with ⟨x, hx, hxe⟩
    exact ⟨x, by rw [← hproj, ← hxe], Or.inl hx⟩
  · rw [hi] at h
    exact ⟨dfltTagged, by rw [← hproj, h], Or.inr rfl⟩

lemma out_fields {t : List TaggedRecord} {r : StockRow} (hr : r ∈ get_stock_data t) :
    r.priceChange = r.lastPrice.sub r.previousClose ∧
    r.percentageChange = ((r.lastPrice.sub r.previousClose).div r.previousClose).mul100 := by
  rcases mem_get_stock_data_repr hr with ⟨x, hx, -⟩
  subst hx
  exact ⟨rfl, rfl⟩

lemma sub_nan_left (y : FVal) : FVal.sub FVal.nan y = FVal.nan := by
  cases y <;> rfl

lemma sub_nan_right (x : FVal) : FVal.sub x FVal.nan = FVal.nan := by
  cases x <;> rfl

lemma div_nan_left (y : FVal) : FVal.div FVal.nan y = FVal.nan := by
  cases y <;> rfl

lemma div_nan_right (x : FVal) : FVal.div x FVal.nan = FVal.nan := by
  cases x <;> rfl

lemma pct_cases (lp pc : FVal) :
    (pc = FVal.nan → ((lp.sub pc).div pc).mul100 = FVal.nan) ∧
    (lp = FVal.nan → ((lp.sub pc).div pc).mul100 = FVal.nan) ∧
    (∀ l c : ℚ, lp = FVal.fin l → pc = FVal.fin c → c ≠ 0 →
      ((lp.sub pc).div pc).mul100 = FVal.fin ((l - c) / c * 100)) ∧
    (lp = FVal.fin 0 → pc = FVal.fin 0 → ((lp.sub pc).div pc).mul100 = FVal.nan) ∧
    (∀ l : ℚ, lp = FVal.fin l → pc = FVal.fin 0 → l ≠ 0 →
      ((lp.sub pc).div pc).mul100 = FVal.inf (decide (0 < l))) := by
  refine ⟨?_, ?_, ?_, ?_, ?_⟩
  · intro h; subst h; rw [sub_nan_right, div_nan_left]; rfl
  · intro h; subst h; rw [sub_nan_left, div_nan_left]; rfl
  · intro l c hl hc hcne; subst hl; subst hc
    simp only [FVal.sub, FVal.div, if_neg hcne, FVal.mul100]
  · intro hl hc; subst hl; subst hc
    simp [FVal.sub, FVal.div, FVal.mul100]
  · intro l hl hc hlne; subst hl; subst hc
    simp [FVal.sub, FVal.div, FVal.mul100, hlne]

lemma change_cases (lp pc : FVal) :
    (lp = FVal.nan ∨ pc = FVal.nan → lp.sub pc = FVal.nan) ∧
    (∀ l c : ℚ, lp = FVal.fin l → pc = FVal.fin c → lp.sub pc = FVal.fin (l - c)) := by
  constructor
  · rintro (h | h) <;> subst h
    · exact sub_nan_left pc
    · exact sub_nan_right lp
  · intro l c hl hc; subst hl; subst hc; rfl

lemma fetchAll_ok (provider : String → Except String (List RawRecord))
    (g : String → List RawRecord) :
    ∀ l : List String, (∀ name ∈ l, provider name = Except.ok (g name)) →
      fetchAll provider l = Except.ok ((l.map (fun n => tagBatch n (g n))).flatten) := by
  intro l
  induction l with
  | nil => intro _; rfl
  | cons a l ih =>
      intro h
      have ha : provider a = Except.ok (g a) := h a (List.mem_cons_self a l)
      have hl : ∀ name ∈ l, provider name = Except.ok (g name) :=
        fun name hn => h name (List.mem_cons_of_mem a hn)
      simp only [fetchAll, ha, ih hl, List.map_cons, List.flatten_cons]

lemma fetchAll_error (provider : String → Except String (List RawRecord)) :
    ∀ (l : List String) (name : String) (e : String), name ∈ l →
      provider name = Except.error e →
      ∃ e', fetchAll provider l = Except.error e' := by
  intro l
  induction l with
  | nil => intro name e h; exact absurd h (List.not_mem_nil name)
  | cons a l ih =>
      intro name e hmem he
      rcases List.mem_cons.mp hmem with rfl | hmem'
      · exact ⟨e, by simp only [fetchAll, he]⟩
      · cases hpa : provider a with
        | error e' => exact ⟨e', by simp only [fetchAll, hpa]⟩
        | ok rows =>
            rcases ih name e hmem' he with ⟨e', he'⟩
            exact ⟨e', by simp only [fetchAll, hpa, he']⟩

lemma runCalls_cached (tbl : List StockRow) :
    ∀ fs : List (List TaggedRecord), ∀ r ∈ runCalls (some tbl) fs, r = tbl := by
  intro fs
  induction fs with
  | nil => intro r h; exact absurd h (List.not_mem_nil r)
  | cons f fs ih =>
      intro r h
      rcases List.mem_cons.mp h with rfl | h'
      · rfl
      · exact ih r h'

lemma lset_length (t : List Nat) (i x : Nat) : (lset t i x).length = t.length := by
  induction t generalizing i with
  | nil => rfl
  | cons a l ih =>
      cases i with
      | zero => rfl
      | succ n => simp [lset, ih]

lemma lswap_length (t : List Nat) (i j : Nat) : (lswap t i j).length = t.length := by
  unfold lswap
  rw [lset_length, lset_length]

lemma ite_lswap_length (c : Prop) [Decidable c] (t : List Nat) (i j : Nat) :
    (if c then lswap t i j else t).length = t.length := by
  split
  · exact lswap_length t i j
  · rfl

lemma partLoop_fst_length (v : List FVal) (vp : FVal) (sfuel : Nat) :
    ∀ (fuel : Nat) (t : List Nat) (i j : Nat),
      (partLoop v vp sfuel fuel t i j).1.length = t.length := by
  intro fuel
  induction fuel with
  | zero => intros; rfl
  | succ fuel ih =>
      intro t i j
      rw [partLoop]
      split
      · rfl
      · rw [ih, lswap_length]

lemma partitionSeg_fst_length (v : List FVal) (t : List Nat) (pl pr : Nat) :
    (partitionSeg v t pl pr).1.length = t.length := by
  simp only [partitionSeg, lswap_length, partLoop_fst_length, ite_lswap_length]

lemma insInner_fst_length (v : List FVal) (vp : FVal) (pl : Nat) :
    ∀ (fuel : Nat) (t : List Nat) (j : Nat),
      (insInner v vp pl fuel t j).1.length = t.length := by
  intro fuel
  induction fuel with
  | zero => intros; rfl
  | succ fuel ih =>
      intro t j
      rw [insInner]
      split
      · rw [ih, lset_length]
      · rfl

lemma foldl_length {β : Type} (f : List Nat → β → List Nat)
    (hf : ∀ (t : List Nat) (b : β), (f t b).length = t.length) :
    ∀ (l : List β) (t : List Nat), (l.foldl f t).length = t.length := by
  intro l
  induction l with
  | nil => intros; rfl
  | cons a l ih =>
      intro t
      rw [List.foldl_cons, ih, hf]

lemma insSortSeg_length (v : List FVal) (t : List Nat) (pl pr : Nat) :
    (insSortSeg v t pl pr).length = t.length := by
  unfold insSortSeg
  exact foldl_length _ (fun t b => by simp only [lset_length, insInner_fst_length]) _ t

lemma siftLoop_fst_length (v : List FVal) (pl n : Nat) (vtmp : FVal) :
    ∀ (fuel : Nat) (t : List Nat) (i j : Nat),
      (siftLoop v pl n vtmp fuel t i j).1.length = t.length := by
  intro fuel
  induction fuel with
  | zero => intros; rfl
  | succ fuel ih =>
      intro t i j
      rw [siftLoop]
      split
      · split
        · rw [ih, lset_length]
        · rfl
      · rfl

lemma length_filter_add {α : Type} (l : List α) (p : α → Bool) :
    (l.filter (fun a => !(p a))).length + (l.filter p).length = l.length := by
  induction l with
  | nil => rfl
  | cons a l ih =>
      cases hp : p a with
      | true =>
          simp [List.filter_cons, hp]
          omega
      | false =>
          simp [List.filter_cons, hp]
          omega

lemma aheapsortSeg_length (v : List FVal) (t : List Nat) (pl n : Nat) :
    (aheapsortSeg v t pl n).length = t.length := by
  unfold aheapsortSeg
  rw [foldl_length, foldl_length]
  · intro t b; simp only [lset_length, siftLoop_fst_length]
  · intro t b; simp only [lset_length, siftLoop_fst_length]

lemma qsortLoop_length (v : List FVal) :
    ∀ (fuel : Nat) (t : List Nat) (pl pr : Nat) (depth : Int) (stack : List (Nat × Nat)),
      (qsortLoop v fuel t pl pr depth stack).length = t.length := by
  intro fuel
  induction fuel with
  | zero => intros; rfl
  | succ fuel ih =>
      intro t pl pr depth stack
      rw [qsortLoop]
      split
      · split
        · cases stack with
          | nil => exact aheapsortSeg_length v t pl (pr - pl + 1)
          | cons hd rest => rw [ih, aheapsortSeg_length]
        · split
          case _ t' pi heq =>
            have hs : t'.length = t.length := by
              have h := partitionSeg_fst_length v t pl pr
              rw [heq] at h
              exact h
            split
            · rw [ih, hs]
            · rw [ih, hs]
      · cases stack with
        | nil => exact insSortSeg_length v t pl pr
        | cons hd rest => rw [ih, insSortSeg_length]

lemma quickArgsort_length (v : List FVal) : (quickArgsort v).length = v.length := by
  unfold quickArgsort
  rw [qsortLoop_length]
  exact List.length_range v.length

lemma nargsortDesc_quick_length (vs : List FVal) :
    (nargsortDesc quickArgsort vs).length = vs.length := by
  unfold nargsortDesc revVals nonNanIdx nanIdxL
  simp only [List.length_append, List.length_reverse, List.length_map, quickArgsort_length]
  have h := length_filter_add (List.range vs.length) (fun i => (vs.getD i FVal.nan).isNan)
  rw [List.length_range] at h
  exact h

lemma get_stock_data_length (t : List TaggedRecord) :
    (get_stock_data t).length = t.length := by
  unfold get_stock_data rankIndexer
  simp only [List.length_map, nargsortDesc_quick_length, rankKeys, normTable]

lemma getD_indep {α : Type} (l : List α) (i : Nat) (d₁ d₂ : α) (h : i < l.length) :
    l.getD i d₁ = l.getD i d₂ := by
  induction l generalizing i with
  | nil => simp at h
  | cons a l ih =>
      cases i with
      | zero => rfl
      | succ n => exact ih n (Nat.lt_of_succ_lt_succ h)

lemma getD_map {α β : Type} (f : α → β) (l : List α) (i : Nat) (d : α) :
    (l.map f).getD i (f d) = f (l.getD i d) := by
  induction l generalizing i with
  | nil => cases i <;> rfl
  | cons a l ih =>
      cases i with
      | zero => rfl
      | succ n => exact ih n

lemma mem_getD_of_lt {α : Type} (l : List α) (i : Nat) (d : α) (h : i < l.length) :
    l.getD i d ∈ l := by
  induction l generalizing i with
  | nil => simp at h
  | cons a l ih =>
      cases i with
      | zero => exact List.mem_cons_self a l
      | succ n => exact List.mem_cons_of_mem a (ih n (Nat.lt_of_succ_lt_succ h))

lemma chain'_nan_all (l : List FVal) (h : ∀ x ∈ l, x.isNan = true) :
    List.Chain' descKey l := by
  induction l with
  | nil => exact List.chain'_nil
  | cons a l ih =>
      cases l with
      | nil => exact List.chain'_singleton a
      | cons b l' =>
          rw [List.chain'_cons]
          refine ⟨⟨fun _ => h b (by simp), fun hb => ?_⟩, ih (fun x hx => h x (List.mem_cons_of_mem a hx))⟩
          rw [h b (by simp)] at hb
          exact absurd hb (by simp)

lemma chain'_imp_mem {α : Type} {R S : α → α → Prop} (l : List α)
    (h : ∀ a b, a ∈ l → b ∈ l → R a b → S a b) (hc : List.Chain' R l) :
    List.Chain' S l := by
  induction l with
  | nil => exact List.chain'_nil
  | cons a l ih =>
      cases l with
      | nil => exact List.chain'_singleton a
      | cons b l' =>
          rw [List.chain'_cons] at hc ⊢
          refine ⟨h a b (by simp) (by simp) hc.1, ih ?_ hc.2⟩
          intro x y hx hy hxy
          exact h x y (List.mem_cons_of_mem a hx) (List.mem_cons_of_mem a hy) hxy

lemma chainB_iff {α : Type} (R : α → α → Bool) :
    ∀ l : List α, chainB R l = true ↔ List.Chain' (fun a b => R a b = true) l := by
  intro l
  induction l with
  | nil => simp [chainB]
  | cons a l ih =>
      cases l with
      | nil => simp [chainB]
      | cons b l' =>
          rw [List.chain'_cons, ← ih]
          simp [chainB, Bool.and_eq_true]

lemma rank_chain (ks : List FVal) (p : List Nat) (hval : argsortValid (revVals ks) p) :
    List.Chain' descKey
      (((p.map (fun a => (nonNanIdx ks).reverse.getD a 0)).reverse ++ nanIdxL ks).map
        (fun i => ks.getD i FVal.nan)) := by
  classical
  set k : Nat → FVal := fun i => ks.getD i FVal.nan with hk
  set g : Nat → Nat := fun a => (nonNanIdx ks).reverse.getD a 0 with hg
  have hlen : (revVals ks).length = (nonNanIdx ks).reverse.length := by
    simp [revVals]
  have hmemp : ∀ a ∈ p, a < (nonNanIdx ks).reverse.length := by
    intro a ha
    have := ((List.isPerm_iff.mp hval.1).mem_iff).mp ha
    rw [List.mem_range] at this
    rw [← hlen]
    exact this
  have hga : ∀ a ∈ p, (k (g a)).isNan = false := by
    intro a ha
    have hlt := hmemp a ha
    have hmem : g a ∈ (nonNanIdx ks).reverse := mem_getD_of_lt _ a 0 hlt
    rw [List.mem_reverse] at hmem
    have := List.of_mem_filter (p := fun i => !(ks.getD i FVal.nan).isNan) hmem
    simpa [hk] using this
  have hrv : ∀ a ∈ p, (revVals ks).getD a FVal.nan = k (g a) := by
    intro a ha
    have hlt := hmemp a ha
    have h1 : (revVals ks).getD a (k 0) = k ((nonNanIdx ks).reverse.getD a 0) := by
      unfold revVals
      exact getD_map k ((nonNanIdx ks).reverse) a 0
    have h2 : (revVals ks).getD a FVal.nan = (revVals ks).getD a (k 0) := by
      apply getD_indep
      rw [hlen]
      exact hlt
    rw [h2, h1]
  rw [List.map_append]
  rw [List.chain'_append]
  refine ⟨?_, ?_, ?_⟩
  · -- the non-NaN block, descending
    rw [← List.map_reverse, List.map_map, List.chain'_map, List.chain'_reverse]
    have hflip : List.Chain'
        (fun a b => npyLt ((revVals ks).getD b FVal.nan) ((revVals ks).getD a FVal.nan) = false) p := by
      have h := (chainB_iff _ p).mp hval.2
      refine List.Chain'.imp ?_ h
      intro a b hab
      revert hab
      cases npyLt ((revVals ks).getD b FVal.nan) ((revVals ks).getD a FVal.nan) <;> simp
    refine chain'_imp_mem p ?_ hflip
    intro a b ha hb hab
    have hka := hga a ha
    have hkb := hga b hb
    rw [hrv a ha, hrv b hb] at hab
    show descKey (k (g b)) (k (g a))
    constructor
    · intro hnan
      exact absurd hnan (by rw [hkb]; exact Bool.false_ne_true)
    · intro _
      unfold npyLt at hab
      exact (Bool.or_eq_false_iff.mp hab).1
  · -- the NaN block
    apply chain'_nan_all
    intro x hx
    rcases List.mem_map.mp hx with ⟨i, hi, hix⟩
    have := List.of_mem_filter (p := fun i => (ks.getD i FVal.nan).isNan) hi
    rw [← hix]
    exact this
  · -- boundary: anything may precede a NaN key
    intro x _ y hy
    have hyn : y.isNan = true := by
      have hym : y ∈ (nanIdxL ks).map (fun i => ks.getD i FVal.nan) :=
        List.mem_of_mem_head? hy
      rcases List.mem_map.mp hym with ⟨i, hi, hix⟩
      have := List.of_mem_filter (p := fun i => (ks.getD i FVal.nan).isNan) hi
      rw [← hix]
      exact this
    exact ⟨fun _ => hyn, fun hyf => absurd hyn (by simp [hyf])⟩

lemma get_stock_data_keys (t : List TaggedRecord) :
    (get_stock_data t).map (fun r => r.yearHigh) =
      (rankIndexer t).map (fun i => (rankKeys t).getD i FVal.nan) := by
  unfold get_stock_data
  simp only [List.map_map, Function.comp]
  exact congrArg (fun f => List.map f (rankIndexer t))
    (funext fun i =>
      (getD_map (fun r : NormRow => r.yearHigh) (normTable t) i
        (normalizeRow (hasMktCap t) (hasPe t) (hasVwap t) dfltTagged)).symm)

/-- C2 (amended): the Normalizer/Ranker output is ordered by `yearHigh`
descending with all missing-key rows after all present-key rows,
provided numpy's quicksort argsort meets the argsort contract on the
masked key vector; the tie-break is the deterministic order of the
unstable default quicksort, which does not in general preserve the
original concatenation order. -/
theorem C2_order_corrected (t : List TaggedRecord)
    (hval : argsortValid (revVals (rankKeys t)) (quickArgsort (revVals (rankKeys t)))) :
    List.Chain' descKey ((get_stock_data t).map (fun r => r.yearHigh)) := by
  rw [get_stock_data_keys]
  exact rank_chain (rankKeys t) (quickArgsort (revVals (rankKeys t))) hval

/-- Witness for C2 on a concrete three-row table with keys 10, missing,
50: the argsort contract hypothesis holds by computation and the output
keys are descending with the missing key last. -/
theorem C2_witness :
    List.Chain' descKey ((get_stock_data exW2).map (fun r => r.yearHigh)) :=
  C2_order_corrected exW2 (by decide)



set_option maxRecDepth 100000 in
/-- C2 counterexample: on seventeen rows with identical `yearHigh` the
sort of line 81 (pandas `sort_values`, default `kind='quicksort'`)
permutes the tied rows, so the stable-tie-break clause of the claim
fails: tied output rows do not keep the original concatenation order,
observably scrambling the symbol column. -/
theorem C2_counterexample :
    ¬ stableTiesHolds ex17 ∧
    (get_stock_data ex17).map (fun r => r.symbol) ≠ ex17.map (fun x => x.raw.symbol) := by
  decide

/-- C1 (amended): for every output row, `percentageChange` is the
missing marker when `lastPrice` or `previousClose` is missing, equals
`(lastPrice − previousClose) / previousClose × 100` when `previousClose`
is present and non-zero, is the missing marker when `previousClose` is
zero and `lastPrice` is zero (0/0), but is a signed infinity — not the
missing marker — when `previousClose` is zero and `lastPrice` non-zero;
the computation is total, so no division error is raised. -/
theorem C1_percentageChange_corrected (t : List TaggedRecord) (r : StockRow)
    (hr : r ∈ get_stock_data t) :
    (r.previousClose = FVal.nan → r.percentageChange = FVal.nan) ∧
    (r.lastPrice = FVal.nan → r.percentageChange = FVal.nan) ∧
    (∀ l c : ℚ, r.lastPrice = FVal.fin l → r.previousClose = FVal.fin c → c ≠ 0 →
      r.percentageChange = FVal.fin ((l - c) / c * 100)) ∧
    (r.lastPrice = FVal.fin 0 → r.previousClose = FVal.fin 0 → r.percentageChange = FVal.nan) ∧
    (∀ l : ℚ, r.lastPrice = FVal.fin l → r.previousClose = FVal.fin 0 → l ≠ 0 →
      r.percentageChange = FVal.inf (decide (0 < l))) := by
  have hf := (out_fields hr).2
  have h := pct_cases r.lastPrice r.previousClose
  rw [← hf] at h
  exact h

/-- Witness for C1 at the concrete one-row table `exW1` (`lastPrice` 5,
`previousClose` 4): the output `percentageChange` is 25. -/
theorem C1_witness : rW1.percentageChange = FVal.fin 25 := by
  have hmem : rW1 ∈ get_stock_data exW1 :=
    mem_getD_of_lt _ 0 default (by rw [get_stock_data_length]; decide)
  have h := (C1_percentageChange_corrected exW1 rW1 hmem).2.2.1 5 4
    (by decide) (by decide) (by norm_num)
  rw [h]
  norm_num

/-- C1 counterexample: on the row with `previousClose` 0 and `lastPrice`
5, the output `percentageChange` is +∞, not the missing-value marker, so
"missing whenever `previousClose` is zero" fails on the code. -/
theorem C1_counterexample :
    rC1.previousClose = FVal.fin 0 ∧ rC1.percentageChange = FVal.inf true ∧
    rC1.percentageChange ≠ FVal.nan := by
  have hmem : rC1 ∈ get_stock_data exC1 :=
    mem_getD_of_lt _ 0 default (by rw [get_stock_data_length]; decide)
  have hf := (out_fields hmem).2
  have hpc : rC1.previousClose = FVal.fin 0 := by decide
  have hlp : rC1.lastPrice = FVal.fin 5 := by decide
  have h5 := (pct_cases rC1.lastPrice rC1.previousClose).2.2.2.2 5 hlp hpc (by norm_num)
  rw [← hf] at h5
  have hd : decide ((0 : ℚ) < 5) = true := by decide
  rw [hd] at h5
  refine ⟨hpc, h5, ?_⟩
  rw [h5]
  decide

/-- C3: the Normalizer/Ranker never fails on malformed numeric cells:
no row is dropped (output length equals input length for every input),
null cells coerce to the missing marker, unparseable text coerces to the
missing marker, and coercion is total — every raw cell becomes either a
finite number or the missing marker. -/
theorem C3_coercion_confirmed (t : List TaggedRecord) :
    (get_stock_data t).length = t.length ∧
    (∀ s : String, parseDec s = none → coerceRaw (Raw.rstr s) = FVal.nan) ∧
    coerceRaw Raw.rnull = FVal.nan ∧
    (∀ x : Raw, coerceRaw x = FVal.nan ∨ ∃ q : ℚ, coerceRaw x = FVal.fin q) := by
  refine ⟨get_stock_data_length t, ?_, rfl, ?_⟩
  · intro s hs
    simp only [coerceRaw, hs]
  · intro x
    cases x with
    | rnum q => exact Or.inr ⟨q, rfl⟩
    | rnull => exact Or.inl rfl
    | rstr s =>
        cases hp : parseDec s with
        | some q =>
            refine Or.inr ⟨q, ?_⟩
            simp only [coerceRaw, hp]
        | none =>
            refine Or.inl ?_
            simp only [coerceRaw, hp]

/-- Witness for C3 at the concrete table `exW1` and the malformed cell
"oops". -/
theorem C3_witness :
    (get_stock_data exW1).length = exW1.length ∧ coerceRaw (Raw.rstr "oops") = FVal.nan :=
  ⟨(C3_coercion_confirmed exW1).1, (C3_coercion_confirmed exW1).2.1 "oops" (by decide)⟩

/-- C4 (amended): the export callback wired to the button
(`download_as_excel`, lines 175-177) produces the fixed filename
`NSE_Stocks_Sorted_by_52_Week_High.xlsx` over the current RankedTable,
but with pandas' default sheet name "Sheet1", since `send_data_frame`
passes no `sheet_name`; the fixed sheet name "Stocks" appears only in
`generate_excel_download_link` (lines 91-103), which no callback or
layout element ever invokes. -/
theorem C4_export_corrected (t : List TaggedRecord) (df : List StockRow) :
    (download_as_excel t).filename = "NSE_Stocks_Sorted_by_52_Week_High.xlsx" ∧
    (download_as_excel t).payload.sheetName = "Sheet1" ∧
    (download_as_excel t).payload.includeIndex = false ∧
    (download_as_excel t).payload.table = get_stock_data t ∧
    (generate_excel_download_link df).payload.sheetName = "Stocks" :=
  ⟨rfl, rfl, rfl, rfl, rfl⟩

/-- C4 counterexample: the serialization invoked by the export action
does not use the sheet name "Stocks". -/
theorem C4_counterexample :
    (download_as_excel []).payload.sheetName ≠ "Stocks" := by
  decide

/-- C5: when an optional column (`totalMktCap`, `pe`, `vwap`) is
entirely absent from the merged collection, every output row carries the
missing marker for it; when it is present, every output row's value for
it is the numeric coercion of some raw cell; and the pipeline does not
fail (no row is dropped). -/
theorem C5_optional_columns_confirmed (t : List TaggedRecord) (r : StockRow)
    (hr : r ∈ get_stock_data t) :
    (hasMktCap t = false → r.totalMktCap = FVal.nan) ∧
    (hasPe t = false → r.pe = FVal.nan) ∧
    (hasVwap t = false → r.vwap = FVal.nan) ∧
    (hasMktCap t = true → ∃ x : Raw, r.totalMktCap = coerceRaw x) ∧
    (hasPe t = true → ∃ x : Raw, r.pe = coerceRaw x) ∧
    (hasVwap t = true → ∃ x : Raw, r.vwap = coerceRaw x) ∧
    (get_stock_data t).length = t.length := by
  rcases mem_get_stock_data_repr hr with ⟨x, hx, -⟩
  subst hx
  refine ⟨?_, ?_, ?_, ?_, ?_, ?_, get_stock_data_length t⟩
  · intro h; simp [projectRow, normalizeRow, h]
  · intro h; simp [projectRow, normalizeRow, h]
  · intro h; simp [projectRow, normalizeRow, h]
  · intro h; exact ⟨x.raw.totalMktCap.getD Raw.rnull, by simp [projectRow, normalizeRow, h]⟩
  · intro h; exact ⟨x.raw.pe.getD Raw.rnull, by simp [projectRow, normalizeRow, h]⟩
  · intro h; exact ⟨x.raw.vwap.getD Raw.rnull, by simp [projectRow, normalizeRow, h]⟩

/-- Witness for C5 at the concrete table `exW1`, whose records carry
none of the optional columns: the output row's `pe` is the missing
marker. -/
theorem C5_witness : rW1.pe = FVal.nan :=
  (C5_optional_columns_confirmed exW1 rW1
    (mem_getD_of_lt _ 0 default (by rw [get_stock_data_length]; decide))).2.1 (by decide)

/-- C6: for a provider answering every one of the eleven fixed index
names, the Fetcher returns exactly the per-index batches tagged with the
queried name, concatenated in the fixed list order (within a batch, in
provider response order, since tagging is a structure-preserving map);
the index list has exactly eleven names, and every tagged record's
`index` field equals the queried name. -/
theorem C6_fetch_confirmed (provider : String → Except String (List RawRecord))
    (batches : String → List RawRecord)
    (h : ∀ name ∈ indicesList, provider name = Except.ok (batches name)) :
    get_all_indices_data provider =
      Except.ok ((indicesList.map (fun n => tagBatch n (batches n))).flatten) ∧
    indicesList.length = 11 ∧
    (∀ (name : String) (rs : List RawRecord), ∀ tr ∈ tagBatch name rs,
      tr.index = name ∧ tr.raw ∈ rs) := by
  refine ⟨fetchAll_ok provider batches indicesList h, rfl, ?_⟩
  intro name rs tr htr
  rcases List.mem_map.mp htr with ⟨r, hrm, hre⟩
  constructor
  · rw [← hre]
  · rw [← hre]
    exact hrm

/-- Witness for C6 with the provider that answers every index with one
null record. -/
theorem C6_witness :
    get_all_indices_data (fun _ => Except.ok [dfltTagged.raw]) =
      Except.ok ((indicesList.map (fun n => tagBatch n [dfltTagged.raw])).flatten) :=
  (C6_fetch_confirmed (fun _ => Except.ok [dfltTagged.raw]) (fun _ => [dfltTagged.raw])
    (fun _ _ => rfl)).1

/-- C7: if the provider request for any fixed index fails, the whole
fetch aborts: `get_all_indices_data` is an error and returns no table at
all (in particular no partial table with the previously fetched rows);
the model performs no retry — each index is requested once by the single
loop of lines 33-38. -/
theorem C7_abort_confirmed (provider : String → Except String (List RawRecord))
    (name e : String) (hmem : name ∈ indicesList)
    (he : provider name = Except.error e) :
    (∃ e', get_all_indices_data provider = Except.error e') ∧
    ∀ tbl : List TaggedRecord, get_all_indices_data provider ≠ Except.ok tbl := by
  have h := fetchAll_error provider indicesList name e hmem he
  refine ⟨h, ?_⟩
  rcases h with ⟨e', he'⟩
  intro tbl hcon
  unfold get_all_indices_data at hcon
  rw [he'] at hcon
  exact Except.noConfusion hcon

/-- Witness for C7 with the provider failing on "NIFTY 500". -/
theorem C7_witness :
    ∃ e', get_all_indices_data failingProvider = Except.error e' :=
  (C7_abort_confirmed failingProvider "NIFTY 500" "connection reset" (by decide) rfl).1

/-- C8: the Normalizer/Ranker is deterministic — it is a pure function
of its input collection (the embedding threads no other state), so two
runs on identical input produce identical ranked output. -/
theorem C8_determinism_confirmed (t₁ t₂ : List TaggedRecord) (h : t₁ = t₂) :
    get_stock_data t₁ = get_stock_data t₂ := by
  rw [h]

/-- Witness for C8 at the concrete table `exW1`. -/
theorem C8_witness : get_stock_data exW1 = get_stock_data exW1 :=
  C8_determinism_confirmed exW1 exW1 rfl

/-- C9: within one process, every `get_stock_data()` call after the
first returns the table computed by the first call: the single-slot
zero-argument `lru_cache` of line 46 is never invalidated, so later
calls return the cached table no matter what a fresh fetch would
return (25-second fetch-cache expiry and 60-second refresh ticks
included). -/
theorem C9_lru_confirmed (f₀ : List TaggedRecord) (fs : List (List TaggedRecord))
    (r : List StockRow) (hr : r ∈ runCalls none (f₀ :: fs)) :
    r = get_stock_data f₀ := by
  have hstep : runCalls none (f₀ :: fs) =
      get_stock_data f₀ :: runCalls (some (get_stock_data f₀)) fs := rfl
  rw [hstep] at hr
  rcases List.mem_cons.mp hr with rfl | h'
  · rfl
  · exact runCalls_cached (get_stock_data f₀) fs r h'

/-- Witness for C9: a three-call trace whose second and third calls see
different fresh data still returns the first call's table. -/
theorem C9_witness :
    (runCalls none [exW1, exC1, []]).getD 2 [] = get_stock_data exW1 :=
  C9_lru_confirmed exW1 [exC1, []] ((runCalls none [exW1, exC1, []]).getD 2 [])
    (mem_getD_of_lt _ 2 [] (by decide))

/-- C10: for every output row, `priceChange` is the missing marker
whenever `lastPrice` or `previousClose` is missing, equals
`lastPrice − previousClose` when both are present, and is in all cases
the (total, never-raising) IEEE subtraction of the two fields. -/
theorem C10_priceChange_confirmed (t : List TaggedRecord) (r : StockRow)
    (hr : r ∈ get_stock_data t) :
    (r.lastPrice = FVal.nan ∨ r.previousClose = FVal.nan → r.priceChange = FVal.nan) ∧
    (∀ l c : ℚ, r.lastPrice = FVal.fin l → r.previousClose = FVal.fin c →
      r.priceChange = FVal.fin (l - c)) ∧
    r.priceChange = r.lastPrice.sub r.previousClose := by
  have hf := (out_fields hr).1
  have h := change_cases r.lastPrice r.previousClose
  rw [← hf] at h
  exact ⟨h.1, h.2, hf⟩

/-- Witness for C10 at the concrete one-row table `exW1`. -/
theorem C10_witness : rW1.priceChange = FVal.fin 1 := by
  have hmem : rW1 ∈ get_stock_data exW1 :=
    mem_getD_of_lt _ 0 default (by rw [get_stock_data_length]; decide)
  have h := (C10_priceChange_confirmed exW1 rW1 hmem).2.1 5 4 (by decide) (by decide)
  rw [h]
  norm_num
